import Mathlib

/-!
Verification development for a small Unix-style shell (`main.cpp`).

The shell's parsing and orchestration layer is embedded shallowly:
  * `trim`, `Tokenizer` (as `readWordM` / `tokenizeGo` / `tokenize`),
  * `splitIntoPipeline` (the pipeline splitter),
  * `extractRedirections` (the redirection extractor),
  * `tryRunInParent` (the builtin dispatcher, with the filesystem and
    environment as explicit oracles),
  * `processLine` (the per-line decision logic of `main`),
  * `runPipeline` / `childRun` (the executor, with `pipe`, `fork`,
    `waitpid`, `open`, `dup2` and `execvp` outcomes as explicit oracles).

Strings are modelled as `List Char`; machine-level wait-status words are
modelled as `Nat` with the Linux encoding (`WIFEXITED s ↔ s % 128 = 0`,
`WEXITSTATUS s = s / 256 % 256`).
-/

/-- Characters matched by C `isspace` in the default locale. -/
def isSpaceChar (c : Char) : Bool :=
  c == ' ' || c == '\t' || c == '\n' || c == '\r' ||
  c == Char.ofNat 11 || c == Char.ofNat 12

/-- Convenience: the character list of a string literal. -/
def chars (s : String) : List Char :=
  s.toList

/-- `trim` from `main.cpp`: strip leading and trailing whitespace. -/
def trim (s : List Char) : List Char :=
  ((s.dropWhile isSpaceChar).reverse.dropWhile isSpaceChar).reverse

inductive TokenType where
  | Word
  | Op
deriving DecidableEq, Repr

structure Token where
  type : TokenType
  text : List Char
deriving DecidableEq, Repr

/-- `Tokenizer::isOperatorStart`. -/
def isOperatorStart (c : Char) : Bool :=
  c == '|' || c == '>' || c == '<' || c == '&' || c == ';'

/-- The three lexing modes of `Tokenizer::readWord`: outside quotes, inside
single quotes, inside double quotes.  The nested `while` loops of the C++
code consume one character per iteration, so the whole of `readWord` is one
character-at-a-time machine over these modes. -/
inductive QuoteMode where
  | norm
  | inSQ
  | inDQ

/-- `Tokenizer::readWord`, as a mode machine.  Returns the accumulated word
text together with the unconsumed remainder of the line. -/
def readWordM : QuoteMode → List Char → List Char × List Char
  | .norm, [] => ([], [])
  | .norm, c :: rest =>
    if isSpaceChar c || isOperatorStart c then ([], c :: rest)
    else if c = '\'' then readWordM .inSQ rest
    else if c = '"' then readWordM .inDQ rest
    else if c = '\\' then
      match rest with
      | [] => ([], [])
      | d :: rest2 =>
        let (o, r) := readWordM .norm rest2
        (d :: o, r)
    else
      let (o, r) := readWordM .norm rest
      (c :: o, r)
  | .inSQ, [] => ([], [])
  | .inSQ, c :: rest =>
    if c = '\'' then readWordM .norm rest
    else
      let (o, r) := readWordM .inSQ rest
      (c :: o, r)
  | .inDQ, [] => ([], [])
  | .inDQ, c :: rest =>
    if c = '"' then readWordM .norm rest
    else if c = '\\' then
      match rest with
      | [] => (['\\'], [])
      | d :: rest2 =>
        let (o, r) := readWordM .inDQ rest2
        (d :: o, r)
    else
      let (o, r) := readWordM .inDQ rest
      (c :: o, r)

/-- `Tokenizer::tokenize`: skip whitespace, then read an operator
(`>` greedily collapsing with a following `>` into `>>`) or a word.
`fuel` bounds the iterations of the `while` loop; every iteration consumes
at least one character, so `length + 1` fuel never runs out. -/
def tokenizeGo : Nat → List Char → List Token
  | 0, _ => []
  | _ + 1, [] => []
  | fuel + 1, c :: rest =>
    if isSpaceChar c then tokenizeGo fuel rest
    else if isOperatorStart c then
      if c = '>' then
        match rest with
        | '>' :: rest2 => ⟨.Op, chars ">>"⟩ :: tokenizeGo fuel rest2
        | _ => ⟨.Op, chars ">"⟩ :: tokenizeGo fuel rest
      else ⟨.Op, [c]⟩ :: tokenizeGo fuel rest
    else
      let (w, r) := readWordM .norm (c :: rest)
      ⟨.Word, w⟩ :: tokenizeGo fuel r

def tokenize (l : List Char) : List Token :=
  tokenizeGo (l.length + 1) l

example : tokenize (chars "echo \"a b\" 'c d' e") =
    [⟨.Word, chars "echo"⟩, ⟨.Word, chars "a b"⟩,
     ⟨.Word, chars "c d"⟩, ⟨.Word, chars "e"⟩] := by decide

example : tokenize (chars "echo a\\ b") =
    [⟨.Word, chars "echo"⟩, ⟨.Word, chars "a b"⟩] := by decide

example : tokenize (chars "fo'o'bar") = [⟨.Word, chars "foobar"⟩] := by
  decide

example : tokenize (chars "cat < in.txt") =
    [⟨.Word, chars "cat"⟩, ⟨.Op, chars "<"⟩, ⟨.Word, chars "in.txt"⟩] := by
  decide

example : tokenize (chars "''") = [⟨.Word, ([] : List Char)⟩] := by decide

/-- A stage / argument list: `using Words = std::vector<std::string>`. -/
abbrev Words := List (List Char)

/-- One iteration of the loop body of `splitIntoPipeline`: a `|` operator
pushes the current stage (even if empty) and starts a new one, a word is
appended to the current stage, and every other operator is discarded (the
branch that would retain it is commented out in the source). -/
def splitStep (st : List Words × Words) (t : Token) : List Words × Words :=
  if t.type = TokenType.Op ∧ t.text = chars "|" then (st.1 ++ [st.2], [])
  else if t.type = TokenType.Word then (st.1, st.2 ++ [t.text])
  else st

/-- `splitIntoPipeline` from `main.cpp`: fold the loop body over the tokens,
then push the final in-progress stage only if it is non-empty. -/
def splitIntoPipeline (tokens : List Token) : List Words :=
  let st := tokens.foldl splitStep ([], [])
  if st.2 = [] then st.1 else st.1 ++ [st.2]

example : splitIntoPipeline (tokenize (chars "ls -l | wc -l")) =
    [[chars "ls", chars "-l"], [chars "wc", chars "-l"]] := by decide

structure RedirectionInfo where
  stdin_file : List Char
  stdout_file : List Char
  stdout_append : Bool
deriving DecidableEq, Repr

/-- The default-constructed `RedirectionInfo`. -/
def r0 : RedirectionInfo := ⟨[], [], false⟩

/-- The loop of `extractRedirections`: `<`, `>` and `>>` followed by a
string record that string (trimmed) and skip it; a trailing operator with
no follower records nothing; everything else is appended to `argv`. -/
def extractGo : List (List Char) → List (List Char) → RedirectionInfo →
    List (List Char) × RedirectionInfo
  | [], argv, r => (argv, r)
  | t :: rest, argv, r =>
    if t = chars "<" then
      match rest with
      | f :: rest2 => extractGo rest2 argv { r with stdin_file := trim f }
      | [] => (argv, r)
    else if t = chars ">" ∨ t = chars ">>" then
      match rest with
      | f :: rest2 =>
        extractGo rest2 argv
          { r with stdout_file := trim f, stdout_append := t == chars ">>" }
      | [] => (argv, r)
    else extractGo rest (argv ++ [t]) r

/-- `extractRedirections` from `main.cpp`. -/
def extractRedirections (cmdTokens : List (List Char)) :
    List (List Char) × RedirectionInfo :=
  extractGo cmdTokens [] r0

example : extractRedirections [chars "cat", chars "<", chars "f", chars ">>", chars "g"] =
    ([chars "cat"], ⟨chars "f", chars "g", true⟩) := by decide

/-- Interpreter-global state touched by builtins: the working directory. -/
structure InterpState where
  cwd : List Char
deriving DecidableEq, Repr

/-- `Builtins::tryRunInParent`, with the environment (`getenv`) and the
filesystem (`fs::current_path(p)` succeeding or throwing) as oracles.
Returns (handled, new state, error messages printed to `stderr`); the
message `cd: error` stands for the caught exception text `"cd: " + e.what()`.
`pwd` and `echo` write only to `stdout`, which no claim observes, and leave
the state unchanged. -/
def tryRunInParent (env : List Char → Option (List Char))
    (validPath : List Char → Bool) (st : InterpState)
    (words : Words) : Bool × InterpState × List (List Char) :=
  match words with
  | [] => (false, st, [])
  | cmd :: rest =>
    if cmd = chars "cd" then
      match rest with
      | [] =>
        let home := (env (chars "HOME")).getD []
        if home = [] then (true, st, [chars "cd: HOME not set"])
        else if validPath home then (true, ⟨home⟩, [])
        else (true, st, [chars "cd: error"])
      | dir :: _ =>
        if validPath dir then (true, ⟨dir⟩, [])
        else (true, st, [chars "cd: error"])
    else if cmd = chars "exit" then (true, st, [])
    else if cmd = chars "pwd" then (true, st, [])
    else if cmd = chars "echo" then (true, st, [])
    else (false, st, [])

/-- What `main` decides to do with one input line. -/
inductive LineAction where
  | exitShell
  | continueLoop
  | builtinHandled
  | external (p : List Words)
deriving DecidableEq, Repr

/-- The per-line body of `main`'s read loop: skip all-whitespace lines,
break on the single token `exit`, then split into a pipeline; a one-stage
pipeline is offered to the builtin dispatcher before falling through to
the executor. -/
def processLine (env : List Char → Option (List Char))
    (validPath : List Char → Bool) (st : InterpState)
    (line : List Char) : LineAction :=
  if trim line = [] then .continueLoop
  else if tokenize line = [⟨TokenType.Word, chars "exit"⟩] then .exitShell
  else if splitIntoPipeline (tokenize line) = [] then .continueLoop
  else if (splitIntoPipeline (tokenize line)).length = 1 then
    if (extractRedirections ((splitIntoPipeline (tokenize line)).headD [])).1 = [] then
      .continueLoop
    else if (tryRunInParent env validPath st
        (extractRedirections ((splitIntoPipeline (tokenize line)).headD [])).1).1 then
      .builtinHandled
    else .external (splitIntoPipeline (tokenize line))
  else .external (splitIntoPipeline (tokenize line))

/-- `WIFEXITED` on a Linux wait-status word. -/
def wifexited (s : Nat) : Bool :=
  s % 128 == 0

/-- `WEXITSTATUS` on a Linux wait-status word. -/
def wexitstatus (s : Nat) : Nat :=
  s / 256 % 256

/-- The wait-status word produced by `_exit(c)`. -/
def exitWord (c : Nat) : Nat :=
  c % 256 * 256

/-- The pipe-creation loop of `Executor::runPipeline`: `remaining` pipes
are requested from the `pipeOut` oracle (the result of the `i`-th `pipe`
call), accumulating the flattened descriptor pairs.  On failure the loop
returns `-1` immediately, leaving the descriptors created so far open:
the error value carries exactly those descriptors. -/
def mkPipesGo (pipeOut : Nat → Option (Nat × Nat)) :
    Nat → Nat → List Nat → Except (List Nat) (List Nat)
  | _, 0, acc => .ok acc
  | i, remaining + 1, acc =>
    match pipeOut i with
    | none => .error acc
    | some (r, w) => mkPipesGo pipeOut (i + 1) remaining (acc ++ [r, w])

/-- The spawn loop of `Executor::runPipeline`: stages with an empty argument
list are skipped; otherwise the `forkOk` oracle decides whether the `j`-th
`fork` call succeeds.  Returns the number of children spawned, or `none`
if a fork failed (after which the parent closes all pipe descriptors and
returns `-1`). -/
def spawnAll (forkOk : Nat → Bool) : List Words → Nat → Option Nat
  | [], j => some j
  | stage :: rest, j =>
    if (extractRedirections stage).1 = [] then spawnAll forkOk rest j
    else if forkOk j then spawnAll forkOk rest (j + 1)
    else none

/-- The parent-side control flow of `Executor::runPipeline`.  Oracles:
`pipeOut i` is the outcome of the `i`-th `pipe` call, `forkOk j` of the
`j`-th `fork` call, and `waitRes j` of `waitpid` on the `j`-th spawned
child (`none` models a failed `waitpid`, which leaves `status` unchanged,
exactly as the C++ loop does).  Returns the `int` result together with
the list of pipe descriptors the parent still holds open on return. -/
def runPipeline (pipeOut : Nat → Option (Nat × Nat)) (forkOk : Nat → Bool)
    (waitRes : Nat → Option Nat) (pipeline : List Words) : Int × List Nat :=
  if pipeline = [] then (0, [])
  else
    match mkPipesGo pipeOut 0 (pipeline.length - 1) [] with
    | .error fds => (-1, fds)
    | .ok _ =>
      match spawnAll forkOk pipeline 0 with
      | none => (-1, [])
      | some k =>
        let status := (List.range k).foldl
          (fun s j => match waitRes j with | some st => st | none => s) 0
        (if wifexited status then (wexitstatus status : Int) else -1, [])

/-- The child-side control flow between `fork` and `execvp` in
`Executor::runPipeline` (stage `idx` of `n`): wire the pipe ends with
`dup2`, open and wire the redirection files, then `execvp`; every failure
makes the child `_exit(127)`.  Oracles: the four `dup2` call outcomes, the
two `open` outcomes, whether `execvp` succeeds, and the wait-status the
executed program eventually terminates with.  Returns the wait-status word
of this child. -/
def childRun (idx n : Nat) (dupInPipeOk dupOutPipeOk dupInFileOk dupOutFileOk : Bool)
    (openInOk openOutOk : List Char → Bool) (execSucceeds : Words → Bool)
    (progStatus : Words → Nat) (argvWords : Words) (r : RedirectionInfo) : Nat :=
  if 0 < idx ∧ dupInPipeOk = false then exitWord 127
  else if idx + 1 < n ∧ dupOutPipeOk = false then exitWord 127
  else if r.stdin_file ≠ [] ∧ openInOk r.stdin_file = false then exitWord 127
  else if r.stdin_file ≠ [] ∧ dupInFileOk = false then exitWord 127
  else if r.stdout_file ≠ [] ∧ openOutOk r.stdout_file = false then exitWord 127
  else if r.stdout_file ≠ [] ∧ dupOutFileOk = false then exitWord 127
  else if execSucceeds argvWords then progStatus argvWords
  else exitWord 127

example :
    runPipeline (fun _ => some (3, 4)) (fun _ => true) (fun _ => some 0)
      [[chars "true"]] = (0, []) := by decide

example :
    runPipeline (fun i => if i == 0 then some (3, 4) else none)
      (fun _ => true) (fun _ => some 0)
      [[chars "a"], [chars "b"], [chars "c"]] = (-1, [3, 4]) := by decide

/-! ## Helper lemmas -/

/-- A stage string that is not one of the three redirection operators. -/
def isPlain (t : List Char) : Prop :=
  t ≠ chars "<" ∧ t ≠ chars ">" ∧ t ≠ chars ">>"

instance (t : List Char) : Decidable (isPlain t) := by
  unfold isPlain; infer_instance

theorem extractGo_append_plain (ws : List (List Char)) :
    ∀ (rest argv : List (List Char)) (r : RedirectionInfo),
      (∀ w ∈ ws, isPlain w) →
      extractGo (ws ++ rest) argv r = extractGo rest (argv ++ ws) r := by
  induction ws with
  | nil => intro rest argv r _; simp
  | cons w ws ih =>
    intro rest argv r h
    have hw : isPlain w := h w (List.mem_cons_self w ws)
    have hws : ∀ x ∈ ws, isPlain x := fun x hx => h x (List.mem_cons_of_mem w hx)
    have h2 : ¬(w = chars ">" ∨ w = chars ">>") := by
      rintro (hc | hc)
      · exact hw.2.1 hc
      · exact hw.2.2 hc
    show extractGo (w :: (ws ++ rest)) argv r = _
    rw [extractGo.eq_def]
    simp only []
    rw [if_neg hw.1, if_neg h2, ih rest (argv ++ [w]) r hws]
    simp

theorem extractGo_lt (f : List Char) (rest2 argv : List (List Char))
    (r : RedirectionInfo) :
    extractGo (chars "<" :: f :: rest2) argv r =
      extractGo rest2 argv { r with stdin_file := trim f } := rfl

theorem extractGo_gt (f : List Char) (rest2 argv : List (List Char))
    (r : RedirectionInfo) :
    extractGo (chars ">" :: f :: rest2) argv r =
      extractGo rest2 argv { r with stdout_file := trim f, stdout_append := false } := rfl

theorem extractGo_gtgt (f : List Char) (rest2 argv : List (List Char))
    (r : RedirectionInfo) :
    extractGo (chars ">>" :: f :: rest2) argv r =
      extractGo rest2 argv { r with stdout_file := trim f, stdout_append := true } := rfl

theorem extractGo_plain_nil (ws argv : List (List Char)) (r : RedirectionInfo)
    (h : ∀ w ∈ ws, isPlain w) :
    extractGo ws argv r = (argv ++ ws, r) := by
  have := extractGo_append_plain ws [] argv r h
  simpa using this

/-! ## C1 -/

/-- C1: evaluation of the source at the failing input `cat < in.txt`.
The tokenizer does produce the `<` operator token, but `splitIntoPipeline`
discards it (the retaining branch is commented out), so the stage handed to
the redirection extractor is `["cat","in.txt"]`, contains no `<`, and the
extractor records no input redirection.  This contradicts the claim that
redirection operator tokens survive into the stage. -/
theorem c1_redirection_operator_discarded :
    tokenize (chars "cat < in.txt") =
      [⟨TokenType.Word, chars "cat"⟩, ⟨TokenType.Op, chars "<"⟩,
       ⟨TokenType.Word, chars "in.txt"⟩] ∧
    splitIntoPipeline
      [⟨TokenType.Word, chars "cat"⟩, ⟨TokenType.Op, chars "<"⟩,
       ⟨TokenType.Word, chars "in.txt"⟩] = [[chars "cat", chars "in.txt"]] ∧
    chars "<" ∉ [chars "cat", chars "in.txt"] ∧
    extractRedirections [chars "cat", chars "in.txt"] =
      ([chars "cat", chars "in.txt"], r0) := by
  decide

/-! ## C3 -/

/-- C3: the tokenizer resolves quoting and escaping, concatenating quoted
and escaped spans of a word into one Word token: `echo "a b" 'c d' e`
yields the words `echo`, `a b`, `c d`, `e`; `echo a\ b` yields `echo`,
`a b`; and `fo'o'bar` is one word `foobar`. -/
theorem c3_tokenizer_quoting :
    tokenize (chars "echo \"a b\" 'c d' e") =
      [⟨TokenType.Word, chars "echo"⟩, ⟨TokenType.Word, chars "a b"⟩,
       ⟨TokenType.Word, chars "c d"⟩, ⟨TokenType.Word, chars "e"⟩] ∧
    tokenize (chars "echo a\\ b") =
      [⟨TokenType.Word, chars "echo"⟩, ⟨TokenType.Word, chars "a b"⟩] ∧
    tokenize (chars "fo'o'bar") = [⟨TokenType.Word, chars "foobar"⟩] := by
  decide

/-! ## C4 -/

/-- C4: behaviour of the redirection extractor on every stage word list:
plain words pass through in order with nothing recorded; `<`/`>`/`>>`
followed by a string record that string trimmed (append flag set exactly
for `>>`) and exclude both strings from the argument list; a trailing
operator with no follower is silently ignored; and when several
redirections of the same direction occur, the last one wins. -/
theorem c4_extractRedirections_spec :
    (∀ ws, (∀ w ∈ ws, isPlain w) → extractRedirections ws = (ws, r0)) ∧
    (∀ ws1 f ws2, (∀ w ∈ ws1, isPlain w) → (∀ w ∈ ws2, isPlain w) →
      extractRedirections (ws1 ++ chars "<" :: f :: ws2) =
        (ws1 ++ ws2, ⟨trim f, [], false⟩)) ∧
    (∀ ws1 f ws2, (∀ w ∈ ws1, isPlain w) → (∀ w ∈ ws2, isPlain w) →
      extractRedirections (ws1 ++ chars ">" :: f :: ws2) =
        (ws1 ++ ws2, ⟨[], trim f, false⟩)) ∧
    (∀ ws1 f ws2, (∀ w ∈ ws1, isPlain w) → (∀ w ∈ ws2, isPlain w) →
      extractRedirections (ws1 ++ chars ">>" :: f :: ws2) =
        (ws1 ++ ws2, ⟨[], trim f, true⟩)) ∧
    (∀ ws op, (∀ w ∈ ws, isPlain w) →
      (op = chars "<" ∨ op = chars ">" ∨ op = chars ">>") →
      extractRedirections (ws ++ [op]) = (ws, r0)) ∧
    (∀ ws1 f ws2 g ws3, (∀ w ∈ ws1, isPlain w) → (∀ w ∈ ws2, isPlain w) →
      (∀ w ∈ ws3, isPlain w) →
      extractRedirections (ws1 ++ chars "<" :: f :: (ws2 ++ chars "<" :: g :: ws3)) =
        (ws1 ++ ws2 ++ ws3, ⟨trim g, [], false⟩)) ∧
    (∀ ws1 f ws2 g ws3, (∀ w ∈ ws1, isPlain w) → (∀ w ∈ ws2, isPlain w) →
      (∀ w ∈ ws3, isPlain w) →
      extractRedirections (ws1 ++ chars ">" :: f :: (ws2 ++ chars ">>" :: g :: ws3)) =
        (ws1 ++ ws2 ++ ws3, ⟨[], trim g, true⟩)) := by
  refine ⟨?_, ?_, ?_, ?_, ?_, ?_, ?_⟩
  · intro ws h
    unfold extractRedirections
    simpa using extractGo_plain_nil ws [] r0 h
  · intro ws1 f ws2 h1 h2
    unfold extractRedirections
    rw [extractGo_append_plain ws1 _ [] r0 h1, List.nil_append, extractGo_lt,
      extractGo_plain_nil ws2 ws1 _ h2]
    rfl
  · intro ws1 f ws2 h1 h2
    unfold extractRedirections
    rw [extractGo_append_plain ws1 _ [] r0 h1, List.nil_append, extractGo_gt,
      extractGo_plain_nil ws2 ws1 _ h2]
    rfl
  · intro ws1 f ws2 h1 h2
    unfold extractRedirections
    rw [extractGo_append_plain ws1 _ [] r0 h1, List.nil_append, extractGo_gtgt,
      extractGo_plain_nil ws2 ws1 _ h2]
    rfl
  · intro ws op h hop
    unfold extractRedirections
    rw [extractGo_append_plain ws _ [] r0 h, List.nil_append]
    rcases hop with rfl | rfl | rfl
    · rfl
    · rfl
    · rfl
  · intro ws1 f ws2 g ws3 h1 h2 h3
    unfold extractRedirections
    rw [extractGo_append_plain ws1 _ [] r0 h1, List.nil_append, extractGo_lt,
      extractGo_append_plain ws2 _ ws1 _ h2, extractGo_lt,
      extractGo_plain_nil ws3 (ws1 ++ ws2) _ h3]
    rfl
  · intro ws1 f ws2 g ws3 h1 h2 h3
    unfold extractRedirections
    rw [extractGo_append_plain ws1 _ [] r0 h1, List.nil_append, extractGo_gt,
      extractGo_append_plain ws2 _ ws1 _ h2, extractGo_gtgt,
      extractGo_plain_nil ws3 (ws1 ++ ws2) _ h3]
    rfl

/-- C4 witness: concrete instances of the extractor behaviour, obtained by
applying `c4_extractRedirections_spec`. -/
theorem c4_extractRedirections_spec_witness :
    extractRedirections [chars "cat", chars "<", chars " in.txt "] =
      ([chars "cat"], ⟨chars "in.txt", [], false⟩) ∧
    extractRedirections [chars "a", chars ">>"] = ([chars "a"], r0) ∧
    extractRedirections [chars "a", chars ">", chars "f", chars ">>", chars "g"] =
      ([chars "a"], ⟨[], chars "g", true⟩) := by
  refine ⟨?_, ?_, ?_⟩
  · exact (c4_extractRedirections_spec.2.1 [chars "cat"] (chars " in.txt ") []
      (by decide) (by decide)).trans (by decide)
  · exact (c4_extractRedirections_spec.2.2.2.2.1 [chars "a"] (chars ">>")
      (by decide) (Or.inr (Or.inr rfl))).trans (by decide)
  · exact (c4_extractRedirections_spec.2.2.2.2.2.2 [chars "a"] (chars "f") []
      (chars "g") [] (by decide) (by decide) (by decide)).trans (by decide)

/-! ## C6 / C9: pipeline splitter -/

theorem splitStep_word (st : List Words × Words) (w : List Char) :
    splitStep st ⟨TokenType.Word, w⟩ = (st.1, st.2 ++ [w]) := by
  unfold splitStep
  rw [if_neg (by rintro ⟨hc, -⟩; cases hc), if_pos rfl]

theorem splitStep_pipe (st : List Words × Words) :
    splitStep st ⟨TokenType.Op, chars "|"⟩ = (st.1 ++ [st.2], []) := by
  unfold splitStep
  rw [if_pos ⟨rfl, rfl⟩]

theorem splitStep_inert (st : List Words × Words) (txt : List Char)
    (h : txt = chars ";" ∨ txt = chars "&") :
    splitStep st ⟨TokenType.Op, txt⟩ = st := by
  unfold splitStep
  rcases h with rfl | rfl
  · rw [if_neg (by rintro ⟨-, hc⟩; exact absurd hc (by decide)),
      if_neg (by intro hc; cases hc)]
  · rw [if_neg (by rintro ⟨-, hc⟩; exact absurd hc (by decide)),
      if_neg (by intro hc; cases hc)]

/-- C6 counterexample: the line `a | |` ends in `|`, yet the splitter's
output ends in an empty stage, because an intermediate `|` pushes the
current stage even when it is empty; only the final in-progress stage is
dropped when empty. -/
theorem c6_counterexample :
    tokenize (chars "a | |") =
      [⟨TokenType.Word, chars "a"⟩, ⟨TokenType.Op, chars "|"⟩,
       ⟨TokenType.Op, chars "|"⟩] ∧
    splitIntoPipeline
      [⟨TokenType.Word, chars "a"⟩, ⟨TokenType.Op, chars "|"⟩,
       ⟨TokenType.Op, chars "|"⟩] = [[chars "a"], []] ∧
    ([[chars "a"], []] : List Words).getLast? = some [] := by
  decide

/-- C6 as amended: only the final in-progress stage is dropped when empty.
When the final segment before the trailing `|` contains a word, the last
output stage does contain at least one word: for any token sequence ending
in a Word followed by `|`, the last stage of the output is non-empty. -/
theorem c6_trailing_pipe_stage (ts : List Token) (w : List Char) :
    ∃ s, (splitIntoPipeline
        (ts ++ [⟨TokenType.Word, w⟩, ⟨TokenType.Op, chars "|"⟩])).getLast? =
      some s ∧ s ≠ [] := by
  refine ⟨(ts.foldl splitStep ([], [])).2 ++ [w], ?_, by simp⟩
  unfold splitIntoPipeline
  rw [List.foldl_append]
  simp only [List.foldl_cons, List.foldl_nil, splitStep_word, splitStep_pipe]
  rw [if_pos trivial]
  exact List.getLast?_concat _

/-- C9: `;` and `&` operator tokens are discarded by the splitter without
ending the current stage — deleting such a token from the sequence does not
change the output at all — and concretely the line `a ; b` parses to the
single one-stage pipeline with argument list `["a","b"]`, which `main`
hands to the executor as one external command. -/
theorem c9_semicolon_amp_inert :
    (∀ (ts1 ts2 : List Token) (txt : List Char),
      txt = chars ";" ∨ txt = chars "&" →
      splitIntoPipeline (ts1 ++ ⟨TokenType.Op, txt⟩ :: ts2) =
        splitIntoPipeline (ts1 ++ ts2)) ∧
    tokenize (chars "a ; b") =
      [⟨TokenType.Word, chars "a"⟩, ⟨TokenType.Op, chars ";"⟩,
       ⟨TokenType.Word, chars "b"⟩] ∧
    splitIntoPipeline
      [⟨TokenType.Word, chars "a"⟩, ⟨TokenType.Op, chars ";"⟩,
       ⟨TokenType.Word, chars "b"⟩] = [[chars "a", chars "b"]] ∧
    extractRedirections [chars "a", chars "b"] =
      ([chars "a", chars "b"], r0) := by
  refine ⟨?_, by decide, by decide, by decide⟩
  intro ts1 ts2 txt h
  unfold splitIntoPipeline
  rw [List.foldl_append, List.foldl_cons, splitStep_inert _ txt h,
    ← List.foldl_append]

/-- C9 witness: deleting the `;` token from the tokens of `a ; b` leaves
the split unchanged. -/
theorem c9_semicolon_amp_inert_witness :
    splitIntoPipeline
      ([⟨TokenType.Word, chars "a"⟩] ++
        ⟨TokenType.Op, chars ";"⟩ :: [⟨TokenType.Word, chars "b"⟩]) =
      splitIntoPipeline
        ([⟨TokenType.Word, chars "a"⟩] ++ [⟨TokenType.Word, chars "b"⟩]) :=
  c9_semicolon_amp_inert.1 [⟨TokenType.Word, chars "a"⟩]
    [⟨TokenType.Word, chars "b"⟩] (chars ";") (Or.inl rfl)

/-! ## C7 / C8 / C10: main loop and builtins -/

theorem tokenizeGo_allspace (fuel : Nat) :
    ∀ l : List Char, (∀ c ∈ l, isSpaceChar c = true) → tokenizeGo fuel l = [] := by
  induction fuel with
  | zero => intro l _; rfl
  | succ fuel ih =>
    intro l h
    match l with
    | [] => rfl
    | c :: rest =>
      have hc : isSpaceChar c = true := h c (List.mem_cons_self c rest)
      have hr : ∀ x ∈ rest, isSpaceChar x = true :=
        fun x hx => h x (List.mem_cons_of_mem c hx)
      rw [tokenizeGo.eq_def]
      simp only [hc, if_true]
      exact ih rest hr

theorem allspace_of_trim_eq_nil (l : List Char) (h : trim l = []) :
    ∀ c ∈ l, isSpaceChar c = true := by
  unfold trim at h
  rw [List.reverse_eq_nil_iff, List.dropWhile_eq_nil_iff] at h
  intro c hc
  by_cases hmem : c ∈ l.dropWhile isSpaceChar
  · exact h c (List.mem_reverse.mpr hmem)
  · have hl : l.takeWhile isSpaceChar ++ l.dropWhile isSpaceChar = l :=
      List.takeWhile_append_dropWhile isSpaceChar l
    rw [← hl] at hc
    rcases List.mem_append.mp hc with h1 | h1
    · exact List.mem_takeWhile_imp h1
    · exact absurd h1 hmem

theorem trim_ne_nil_of_tokenize_ne_nil (l : List Char)
    (h : tokenize l ≠ []) : trim l ≠ [] := by
  intro ht
  exact h (tokenizeGo_allspace _ l (allspace_of_trim_eq_nil l ht))

/-- C7: a line tokenizing to the single word `exit` makes the read loop
terminate the session; a line tokenizing to anything else never does; and
a line whose single pipeline stage has argument list `exit :: args` is
reported as handled by the builtin dispatcher (the interpreter continues). -/
theorem c7_exit_line (env : List Char → Option (List Char))
    (validPath : List Char → Bool) (st : InterpState) (line : List Char) :
    (tokenize line = [⟨TokenType.Word, chars "exit"⟩] →
      processLine env validPath st line = .exitShell) ∧
    (tokenize line ≠ [⟨TokenType.Word, chars "exit"⟩] →
      processLine env validPath st line ≠ .exitShell) ∧
    (∀ stage args,
      tokenize line ≠ [⟨TokenType.Word, chars "exit"⟩] →
      splitIntoPipeline (tokenize line) = [stage] →
      (extractRedirections stage).1 = chars "exit" :: args →
      processLine env validPath st line = .builtinHandled) := by
  refine ⟨?_, ?_, ?_⟩
  · intro h
    have htr : trim line ≠ [] :=
      trim_ne_nil_of_tokenize_ne_nil line (by rw [h]; simp)
    unfold processLine
    rw [if_neg htr, if_pos h]
  · intro h
    by_cases h1 : trim line = []
    · unfold processLine
      rw [if_pos h1]
      simp
    · unfold processLine
      rw [if_neg h1, if_neg h]
      repeat' split
      all_goals simp
  · intro stage args h hsplit hargv
    have htr : trim line ≠ [] := by
      intro ht
      have h0 : tokenize line = [] :=
        tokenizeGo_allspace _ line (allspace_of_trim_eq_nil line ht)
      rw [h0] at hsplit
      exact absurd hsplit (by simp [splitIntoPipeline])
    have hb : (tryRunInParent env validPath st (chars "exit" :: args)).1 = true := by
      unfold tryRunInParent
      simp only []
      rw [if_neg (by decide)]
      rfl
    unfold processLine
    rw [if_neg htr, if_neg h, hsplit]
    rw [if_neg (by simp), if_pos (show ([stage] : List Words).length = 1 from rfl)]
    simp only [List.headD_cons, hargv]
    rw [if_neg (by simp), if_pos hb]

/-- C7 witness: the bare line `exit` terminates the session, and the line
`exit 1` (single stage, `exit` with an argument) is reported as handled. -/
theorem c7_exit_line_witness :
    processLine (fun _ => none) (fun _ => false) ⟨[]⟩ (chars "exit") =
      .exitShell ∧
    processLine (fun _ => none) (fun _ => false) ⟨[]⟩ (chars "exit 1") =
      .builtinHandled := by
  constructor
  · exact (c7_exit_line (fun _ => none) (fun _ => false) ⟨[]⟩
      (chars "exit")).1 (by decide)
  · exact (c7_exit_line (fun _ => none) (fun _ => false) ⟨[]⟩
      (chars "exit 1")).2.2 [chars "exit", chars "1"] [chars "1"]
      (by decide) (by decide) (by decide)

/-- C8: `cd` is atomic on error and always reported as handled: with no
argument and `HOME` unset (modelled: `getenv` returning nothing or the
empty string), or with `HOME` set to an invalid path, or with an explicit
invalid target path, it emits an error message, leaves the working
directory unchanged, and returns handled. -/
theorem c8_cd_atomic (env : List Char → Option (List Char))
    (validPath : List Char → Bool) (st : InterpState) :
    ((env (chars "HOME")).getD [] = [] →
      tryRunInParent env validPath st [chars "cd"] =
        (true, st, [chars "cd: HOME not set"])) ∧
    (∀ home, (env (chars "HOME")).getD [] = home → home ≠ [] →
      validPath home = false →
      tryRunInParent env validPath st [chars "cd"] =
        (true, st, [chars "cd: error"])) ∧
    (∀ dir rest, validPath dir = false →
      tryRunInParent env validPath st (chars "cd" :: dir :: rest) =
        (true, st, [chars "cd: error"])) := by
  refine ⟨?_, ?_, ?_⟩
  · intro h
    unfold tryRunInParent
    simp only [h]
    rfl
  · intro home hh hne hv
    unfold tryRunInParent
    simp only [hh]
    rw [if_pos trivial, if_neg hne, if_neg (by simp [hv])]
  · intro dir rest hv
    unfold tryRunInParent
    simp only []
    rw [if_pos trivial, if_neg (by simp [hv])]

/-- C8 witness: `cd` with `HOME` unset, `cd` with an invalid `HOME`, and
`cd /nonexistent`, each at a concrete interpreter state. -/
theorem c8_cd_atomic_witness :
    tryRunInParent (fun _ => none) (fun _ => false) ⟨chars "/"⟩ [chars "cd"] =
      (true, ⟨chars "/"⟩, [chars "cd: HOME not set"]) ∧
    tryRunInParent (fun _ => some (chars "/h")) (fun _ => false) ⟨chars "/"⟩
      [chars "cd"] = (true, ⟨chars "/"⟩, [chars "cd: error"]) ∧
    tryRunInParent (fun _ => none) (fun _ => false) ⟨chars "/"⟩
      [chars "cd", chars "/nonexistent"] =
      (true, ⟨chars "/"⟩, [chars "cd: error"]) := by
  refine ⟨?_, ?_, ?_⟩
  · exact (c8_cd_atomic (fun _ => none) (fun _ => false) ⟨chars "/"⟩).1 rfl
  · exact (c8_cd_atomic (fun _ => some (chars "/h")) (fun _ => false)
      ⟨chars "/"⟩).2.1 (chars "/h") rfl (by decide) rfl
  · exact (c8_cd_atomic (fun _ => none) (fun _ => false) ⟨chars "/"⟩).2.2
      (chars "/nonexistent") [] rfl

/-- C10: an empty quoted string is one Word token with empty text; the
resulting one-element stage `[""]` is non-empty, so it is neither skipped
nor recognized as a builtin and reaches the executor as an external
command; in the child, when `execvp` of the empty program name fails, the
child exits with the distinguished status 127. -/
theorem c10_empty_quoted_word (env : List Char → Option (List Char))
    (validPath : List Char → Bool) (st : InterpState)
    (dupA dupB dupC dupD : Bool) (openInOk openOutOk : List Char → Bool)
    (execSucceeds : Words → Bool) (progStatus : Words → Nat)
    (hexec : execSucceeds [[]] = false) :
    tokenize (chars "''") = [⟨TokenType.Word, []⟩] ∧
    tokenize (chars "\"\"") = [⟨TokenType.Word, []⟩] ∧
    processLine env validPath st (chars "''") = .external [[[]]] ∧
    childRun 0 1 dupA dupB dupC dupD openInOk openOutOk execSucceeds
      progStatus [[]] r0 = exitWord 127 ∧
    wifexited (exitWord 127) = true ∧ wexitstatus (exitWord 127) = 127 := by
  refine ⟨by decide, by decide, rfl, ?_, by decide, by decide⟩
  unfold childRun
  rw [if_neg (by simp), if_neg (by simp), if_neg (by simp [r0]),
    if_neg (by simp [r0]), if_neg (by simp [r0]), if_neg (by simp [r0]),
    if_neg (by simp [hexec])]

/-- C10 witness: concrete oracles under which `execvp` of the empty name
fails, making the child exit with status 127. -/
theorem c10_empty_quoted_word_witness :
    childRun 0 1 true true true true (fun _ => true) (fun _ => true)
      (fun _ => false) (fun _ => 0) [[]] r0 = exitWord 127 :=
  (c10_empty_quoted_word (fun _ => none) (fun _ => false) ⟨[]⟩ true true true
    true (fun _ => true) (fun _ => true) (fun _ => false) (fun _ => 0)
    rfl).2.2.2.1

/-! ## C2 / C5: executor -/

theorem mem_of_getLast?_eq {α : Type} (l : List α) (a : α)
    (h : l.getLast? = some a) : a ∈ l := by
  induction l with
  | nil => simp at h
  | cons x xs ih =>
    cases xs with
    | nil =>
      rw [List.getLast?_singleton] at h
      obtain rfl : x = a := Option.some.inj h
      simp
    | cons y ys =>
      rw [List.getLast?_cons_cons] at h
      exact List.mem_cons_of_mem x (ih h)

theorem mkPipesGo_ok (pipeOut : Nat → Option (Nat × Nat))
    (hp : ∀ i, (pipeOut i).isSome) :
    ∀ (remaining i : Nat) (acc : List Nat),
      ∃ fds, mkPipesGo pipeOut i remaining acc = .ok fds := by
  intro remaining
  induction remaining with
  | zero => intro i acc; exact ⟨acc, rfl⟩
  | succ rem ih =>
    intro i acc
    obtain ⟨p, hpi⟩ := Option.isSome_iff_exists.mp (hp i)
    obtain ⟨r, w⟩ := p
    rw [mkPipesGo.eq_def]
    simp only [hpi]
    exact ih (i + 1) (acc ++ [r, w])

theorem spawnAll_bounds (forkOk : Nat → Bool) (hf : ∀ j, forkOk j = true) :
    ∀ (stages : List Words) (j k : Nat), spawnAll forkOk stages j = some k →
      j ≤ k ∧ ∀ stage ∈ stages, (extractRedirections stage).1 ≠ [] → j < k := by
  intro stages
  induction stages with
  | nil =>
    intro j k h
    have hjk : j = k := by simpa [spawnAll] using h
    subst hjk
    exact ⟨Nat.le_refl j, by simp⟩
  | cons stage rest ih =>
    intro j k h
    rw [spawnAll] at h
    by_cases he : (extractRedirections stage).1 = []
    · rw [if_pos he] at h
      obtain ⟨h1, h2⟩ := ih j k h
      refine ⟨h1, ?_⟩
      intro s hs hne
      rcases List.mem_cons.mp hs with rfl | hs2
      · exact absurd he hne
      · exact h2 s hs2 hne
    · rw [if_neg he] at h
      simp only [hf, if_true] at h
      obtain ⟨h1, h2⟩ := ih (j + 1) k h
      refine ⟨Nat.le_of_succ_le h1, ?_⟩
      intro s hs hne
      rcases List.mem_cons.mp hs with rfl | hs2
      · exact Nat.lt_of_lt_of_le (Nat.lt_succ_self j) h1
      · exact Nat.lt_of_succ_lt (h2 s hs2 hne)

theorem waitFold_last (waitRes : Nat → Option Nat) (k s : Nat) (hk : 0 < k)
    (hw : waitRes (k - 1) = some s) :
    (List.range k).foldl
      (fun st j => match waitRes j with | some x => x | none => st) 0 = s := by
  obtain ⟨m, rfl⟩ : ∃ m, k = m + 1 := ⟨k - 1, by omega⟩
  rw [List.range_succ, List.foldl_append, List.foldl_cons, List.foldl_nil]
  have hm : waitRes m = some s := by simpa using hw
  simp [hm]

/-- C2: when pipe creation and every fork succeed and the last stage has a
non-empty argument list (so the last spawned child is the last stage's
process), `runPipeline` returns that child's exit status when it terminated
normally by voluntary exit (its wait status `s` has `WIFEXITED`, i.e.
`s % 128 = 0`), and the sentinel `-1` when it did not (e.g. it was killed
by a signal, so `s % 128 ≠ 0`). -/
theorem c2_runPipeline_last_status (pipeOut : Nat → Option (Nat × Nat))
    (forkOk : Nat → Bool) (waitRes : Nat → Option Nat) (pipeline : List Words)
    (lastStage : Words) (k s : Nat)
    (hne : pipeline ≠ [])
    (hp : ∀ i, (pipeOut i).isSome)
    (hf : ∀ j, forkOk j = true)
    (hlast : pipeline.getLast? = some lastStage)
    (hargv : (extractRedirections lastStage).1 ≠ [])
    (hk : spawnAll forkOk pipeline 0 = some k)
    (hw : waitRes (k - 1) = some s) :
    (s % 128 = 0 →
      (runPipeline pipeOut forkOk waitRes pipeline).1 = (wexitstatus s : Int)) ∧
    (s % 128 ≠ 0 → (runPipeline pipeOut forkOk waitRes pipeline).1 = -1) := by
  have hk0 : 0 < k := by
    have hmem : lastStage ∈ pipeline := mem_of_getLast?_eq pipeline lastStage hlast
    exact (spawnAll_bounds forkOk hf pipeline 0 k hk).2 lastStage hmem hargv
  obtain ⟨fds, hfds⟩ := mkPipesGo_ok pipeOut hp (pipeline.length - 1) 0 []
  have hrun : runPipeline pipeOut forkOk waitRes pipeline =
      (if wifexited s then (wexitstatus s : Int) else -1, []) := by
    unfold runPipeline
    rw [if_neg hne, hfds]
    simp only []
    rw [hk]
    simp only []
    rw [waitFold_last waitRes k s hk0 hw]
  constructor
  · intro h0
    rw [hrun]
    simp [wifexited, h0]
  · intro h0
    rw [hrun]
    simp [wifexited, h0]

/-- C2 witness: a two-stage pipeline whose last child exits voluntarily
with code 2 (wait status word 512): the result is 2. -/
theorem c2_runPipeline_last_status_witness :
    (runPipeline (fun _ => some (3, 4)) (fun _ => true) (fun _ => some 512)
      [[chars "ls"], [chars "wc"]]).1 = (2 : Int) := by
  have h := c2_runPipeline_last_status (fun _ => some (3, 4)) (fun _ => true)
    (fun _ => some 512) [[chars "ls"], [chars "wc"]] [chars "wc"] 2 512
    (by decide) (fun _ => rfl) (fun _ => rfl) (by decide) (by decide)
    (by decide) rfl
  exact (h.1 (by decide)).trans (by decide)

/-- C5 counterexample: a three-stage pipeline where the second `pipe` call
fails.  `runPipeline` returns the sentinel `-1` with the two descriptors of
the first (successfully created) pipe still open — a failure exit path on
which the parent does not close every descriptor it created, contradicting
the claim. -/
theorem c5_counterexample :
    runPipeline (fun i => if i == 0 then some (3, 4) else none)
      (fun _ => true) (fun _ => some 0)
      [[chars "a"], [chars "b"], [chars "c"]] = (-1, [3, 4]) ∧
    ([3, 4] : List Nat) ≠ [] := by decide

/-- C5 as amended: the parent closes every pipe descriptor it created
before returning on the fork-failure path and on the success path; but on
the pipe-creation-failure path it returns the sentinel `-1` immediately,
leaving exactly the descriptors created so far open (a descriptor leak
whenever at least one pipe had already been created). -/
theorem c5_descriptor_release (pipeOut : Nat → Option (Nat × Nat))
    (forkOk : Nat → Bool) (waitRes : Nat → Option Nat) (pipeline : List Words)
    (hne : pipeline ≠ []) :
    (∀ fds, mkPipesGo pipeOut 0 (pipeline.length - 1) [] = .error fds →
      runPipeline pipeOut forkOk waitRes pipeline = (-1, fds)) ∧
    (∀ fds, mkPipesGo pipeOut 0 (pipeline.length - 1) [] = .ok fds →
      spawnAll forkOk pipeline 0 = none →
      runPipeline pipeOut forkOk waitRes pipeline = (-1, [])) ∧
    (∀ fds k, mkPipesGo pipeOut 0 (pipeline.length - 1) [] = .ok fds →
      spawnAll forkOk pipeline 0 = some k →
      (runPipeline pipeOut forkOk waitRes pipeline).2 = []) := by
  refine ⟨?_, ?_, ?_⟩
  · intro fds hfds
    unfold runPipeline
    rw [if_neg hne, hfds]
  · intro fds hfds hsp
    unfold runPipeline
    rw [if_neg hne, hfds]
    simp only []
    rw [hsp]
  · intro fds k hfds hsp
    unfold runPipeline
    rw [if_neg hne, hfds]
    simp only []
    rw [hsp]

/-- C5 witness: the three release behaviours at concrete oracles — pipe
failure leaks the first pipe's descriptors, fork failure and success leave
nothing open. -/
theorem c5_descriptor_release_witness :
    runPipeline (fun i => if i == 0 then some (3, 4) else none)
      (fun _ => true) (fun _ => some 0)
      [[chars "a"], [chars "b"], [chars "c"]] = (-1, [3, 4]) ∧
    runPipeline (fun _ => some (3, 4)) (fun _ => false) (fun _ => some 0)
      [[chars "a"], [chars "b"]] = (-1, []) ∧
    (runPipeline (fun _ => some (3, 4)) (fun _ => true) (fun _ => some 0)
      [[chars "a"], [chars "b"]]).2 = [] := by
  refine ⟨?_, ?_, ?_⟩
  · exact (c5_descriptor_release _ _ _ _ (by decide)).1 [3, 4] rfl
  · exact (c5_descriptor_release _ _ _ _ (by decide)).2.1 [3, 4] rfl rfl
  · exact (c5_descriptor_release _ _ _ _ (by decide)).2.2 [3, 4] 2 rfl rfl
